import Mathlib

/-!
Verification development for the SEC Form 25 delisting scraper
(`Delisted_Stock_Scraper.py`).

The Python source is shallowly embedded below.  Monetary values (prices,
share counts, market caps — floats in the source) are modelled as `ℚ`.
Dates are `YYYY-MM-DD` strings; the source parses them with `strptime` and
compares the resulting `datetime` values, which for well-formed
`YYYY-MM-DD` strings coincides with lexicographic comparison of the
strings, so dates are compared lexicographically here (`strLe`).
External HTTP/`yfinance` calls are modelled by oracle values describing
what the outside world returns on each call; an oracle value of `none`
stands for an exception raised inside the corresponding `try` block.
-/

/-! ## String helpers (lexicographic order, ASCII upper-casing) -/

/-- Lexicographic `≤` on char lists, by code point.  Models Python string
comparison (and `datetime` comparison of parsed `YYYY-MM-DD` dates). -/
def lexLe : List Char → List Char → Bool
  | [], _ => true
  | _ :: _, [] => false
  | a :: as, b :: bs =>
    if a.toNat < b.toNat then true
    else if b.toNat < a.toNat then false
    else lexLe as bs

/-- Lexicographic `≤` on strings. -/
def strLe (a b : String) : Bool := lexLe a.data b.data

/-- Strict lexicographic `<` on strings (models Python `<` on strings and
on parsed dates). -/
def strLt (a b : String) : Bool := !(strLe b a)

/-- ASCII upper-case of one character; models Python `str.upper` on the
ASCII exchange codes that occur here. -/
def charUpper (c : Char) : Char :=
  if 'a' ≤ c ∧ c ≤ 'z' then Char.ofNat (c.toNat - 32) else c

/-- ASCII upper-case of a string (Python `exchange_raw.upper()`). -/
def strUpper (s : String) : String := ⟨s.data.map charUpper⟩

/-! ## Market-cap fetcher (`OptimizedMarketCapFetcher`) -/

/-- The fields of `yf.Ticker(t).info` read by the fetcher.  A field that is
missing from the dict (or stored as JSON null, which the source treats
the same way through truthiness checks) is `none`. -/
structure InfoDict where
  sharesOutstanding : Option ℚ
  shares : Option ℚ
  impliedSharesOutstanding : Option ℚ
  marketCap : Option ℚ
deriving DecidableEq

/-- One HTTP response from the Financial Modeling Prep quote endpoint.
`body` is the `marketCap` field of the first element when the JSON body is
a non-empty list carrying that field, and `none` for any other body (empty
list, error dict, missing field is `data[0].get('marketCap', 0)`, i.e. `0`,
which the source then rejects via `market_cap > 0`, so it is folded into
`none` ∪ non-positive values; we keep the field as the raw optional value
and re-check positivity exactly as the source does). -/
structure FmpResponse where
  status : ℕ
  body : Option ℚ
deriving DecidableEq

/-- The external world as seen by one `get_market_cap` call:
`hist60` – the `Close` column of `stock.history` over the 60-day window of
`_get_yahoo_historical` (chronological; `none` = exception);
`hist90` – the same for the 90-day window of `_calculate_from_yahoo_data`;
`info` – `stock.info` (`none` = exception);
`fmp` – the FMP HTTP response (`none` = request exception/timeout). -/
structure CallWorld where
  hist60 : Option (List ℚ)
  hist90 : Option (List ℚ)
  info : Option InfoDict
  fmp : Option FmpResponse
deriving DecidableEq

/-- `OptimizedMarketCapFetcher._get_yahoo_historical`: latest close in the
window times `sharesOutstanding`, accepted only strictly between `1_000`
and `1_000_000_000_000`. -/
def get_yahoo_historical (hist : Option (List ℚ)) (info : Option InfoDict) :
    Option ℚ :=
  match hist with
  | none => none
  | some [] => none
  | some (p :: ps) =>
    match info with
    | none => none
    | some i =>
      let close_price := (p :: ps).getLast (List.cons_ne_nil p ps)
      match i.sharesOutstanding with
      | none => none
      | some shares =>
        if 0 < shares ∧ 0 < close_price then
          let market_cap := close_price * shares
          if 1000 < market_cap ∧ market_cap < 1000000000000 then
            some market_cap
          else none
        else none

/-- `OptimizedMarketCapFetcher._get_yahoo_current`: the `marketCap` field
of `info`, accepted if positive. -/
def get_yahoo_current (info : Option InfoDict) : Option ℚ :=
  match info with
  | none => none
  | some i =>
    match i.marketCap with
    | none => none
    | some market_cap => if 0 < market_cap then some market_cap else none

/-- The shares-outstanding fallback chain of
`_calculate_from_yahoo_data`: `sharesOutstanding` if truthy, otherwise
`info.get('shares', info.get('impliedSharesOutstanding'))`. -/
def fallbackShares (i : InfoDict) : Option ℚ :=
  match i.shares with
  | some s => some s
  | none => i.impliedSharesOutstanding

/-- `OptimizedMarketCapFetcher._calculate_from_yahoo_data`: latest close in
the 90-day window times the fallback-chain share count, same sanity
bounds as `_get_yahoo_historical`. -/
def calculate_from_yahoo_data (hist : Option (List ℚ))
    (info : Option InfoDict) : Option ℚ :=
  match hist with
  | none => none
  | some [] => none
  | some (p :: ps) =>
    match info with
    | none => none
    | some i =>
      let close_price := (p :: ps).getLast (List.cons_ne_nil p ps)
      let shares :=
        match i.sharesOutstanding with
        | some s => if s = 0 then fallbackShares i else some s
        | none => fallbackShares i
      match shares with
      | none => none
      | some s =>
        if 0 < s ∧ 0 < close_price then
          let market_cap := close_price * s
          if 1000 < market_cap ∧ market_cap < 1000000000000 then
            some market_cap
          else none
        else none

/-- `OptimizedMarketCapFetcher._get_from_fmp`, as a function of the
supplied-key flag, the current `fmp_api_working` flag and the HTTP
response.  Returns the optional market cap and the new value of
`fmp_api_working` (set to `false` on 401 and on 429, untouched
otherwise, in particular on 403). -/
def get_from_fmp (fmp_api_key : Bool) (fmp_api_working : Bool)
    (resp : Option FmpResponse) : Option ℚ × Bool :=
  if !fmp_api_key then (none, fmp_api_working)
  else
    match resp with
    | none => (none, fmp_api_working)
    | some r =>
      if r.status = 401 then (none, false)
      else if r.status = 403 then (none, fmp_api_working)
      else if r.status = 429 then (none, false)
      else if r.status = 200 then
        (match r.body with
         | some market_cap =>
             if 0 < market_cap then some market_cap else none
         | none => none,
         fmp_api_working)
      else (none, fmp_api_working)

/-- The `self.stats` counter dict of `OptimizedMarketCapFetcher`. -/
structure Stats where
  yahoo_current : ℕ
  yahoo_historical : ℕ
  fmp_api : ℕ
  calculated : ℕ
  failed : ℕ
  total : ℕ
deriving DecidableEq

/-- The all-zero initial `stats` dict. -/
def Stats.init : Stats := ⟨0, 0, 0, 0, 0, 0⟩

/-- Mutable state of an `OptimizedMarketCapFetcher` instance:
whether an API key was supplied, the `fmp_api_working` flag and the
statistics counters. -/
structure FetcherState where
  fmp_api_key : Bool
  fmp_api_working : Bool
  stats : Stats
deriving DecidableEq

/-- `OptimizedMarketCapFetcher.__init__`: counters start at zero and
`fmp_api_working` is `true` exactly when a key was supplied and the
startup validation call succeeded. -/
def FetcherState.init (key validated : Bool) : FetcherState :=
  { fmp_api_key := key, fmp_api_working := key && validated,
    stats := Stats.init }

/-- How many times each external strategy helper performed its network
lookup during one `get_market_cap` call.  `fmp` counts actual requests to
the FMP endpoint (the guarded call on line 126 of the source). -/
structure StrategyCalls where
  yahoo_historical : ℕ
  fmp : ℕ
  calculated : ℕ
  yahoo_current : ℕ
deriving DecidableEq

/-- `OptimizedMarketCapFetcher.get_market_cap`: the four-strategy cascade.
Returns `((market_cap, source), new state, per-strategy call counts)`. -/
def get_market_cap (st : FetcherState) (w : CallWorld) :
    (Option ℚ × String) × FetcherState × StrategyCalls :=
  let stats := { st.stats with total := st.stats.total + 1 }
  match get_yahoo_historical w.hist60 w.info with
  | some v =>
    ((some v, "yahoo_historical"),
     { st with stats :=
        { stats with yahoo_historical := stats.yahoo_historical + 1 } },
     ⟨1, 0, 0, 0⟩)
  | none =>
    let fmpAttempted := st.fmp_api_key && st.fmp_api_working
    let fmpOut :=
      if fmpAttempted then
        get_from_fmp st.fmp_api_key st.fmp_api_working w.fmp
      else (none, st.fmp_api_working)
    let fmpCalls := if fmpAttempted then 1 else 0
    let st1 := { st with fmp_api_working := fmpOut.2 }
    match fmpOut.1 with
    | some v =>
      ((some v, "fmp_api"),
       { st1 with stats := { stats with fmp_api := stats.fmp_api + 1 } },
       ⟨1, fmpCalls, 0, 0⟩)
    | none =>
      match calculate_from_yahoo_data w.hist90 w.info with
      | some v =>
        ((some v, "calculated"),
         { st1 with stats :=
            { stats with calculated := stats.calculated + 1 } },
         ⟨1, fmpCalls, 1, 0⟩)
      | none =>
        match get_yahoo_current w.info with
        | some v =>
          ((some v, "yahoo_current"),
           { st1 with stats :=
              { stats with yahoo_current := stats.yahoo_current + 1 } },
           ⟨1, fmpCalls, 1, 1⟩)
        | none =>
          ((none, "none"),
           { st1 with stats := { stats with failed := stats.failed + 1 } },
           ⟨1, fmpCalls, 1, 1⟩)

/-- A whole run's worth of `get_market_cap` calls, folding the fetcher
state through a list of per-call worlds. -/
def runCalls (st : FetcherState) : List CallWorld → FetcherState
  | [] => st
  | w :: ws => runCalls (get_market_cap st w).2.1 ws

/-- Like `runCalls` but also accumulating the total number of FMP network
requests issued across the run. -/
def runCallsFmpCount (st : FetcherState) : List CallWorld → FetcherState × ℕ
  | [] => (st, 0)
  | w :: ws =>
    let r := get_market_cap st w
    let rest := runCallsFmpCount r.2.1 ws
    (rest.1, r.2.2.fmp + rest.2)

/-! ## Scraper (`SECDelistingScraperOptimized`) -/

/-- The fixed Yahoo-code → exchange-name table of `_get_ticker_exchange`
(`exchange_mapping` in the source). -/
def exchange_mapping (raw : String) : Option String :=
  if raw = "NYQ" then some "NYSE"
  else if raw = "NYSE" then some "NYSE"
  else if raw = "NMS" then some "NASDAQ"
  else if raw = "NASDAQ" then some "NASDAQ"
  else if raw = "NGM" then some "NASDAQ"
  else if raw = "NAS" then some "NASDAQ"
  else if raw = "ASE" then some "AMEX"
  else if raw = "AMEX" then some "AMEX"
  else if raw = "PCX" then some "NYSE ARCA"
  else if raw = "NYE" then some "NYSE"
  else none

/-- The in-memory `self.ticker_to_exchange` cache, as an association list
(most recent insertion first; each ticker is inserted at most once since a
cache hit returns early). -/
def cacheLookup : List (String × String) → String → Option String
  | [], _ => none
  | (k, v) :: rest, t => if k = t then some v else cacheLookup rest t

/-- `SECDelistingScraperOptimized._get_ticker_exchange`.  The oracle
`info` gives the raw `info.get('exchange', '')` string for a ticker
(`none` = exception inside the `try` block; a missing field is the empty
string `""`).  Returns the resolved exchange, the new cache, and whether
an external lookup was performed (`false` exactly on a cache hit). -/
def get_ticker_exchange (cache : List (String × String))
    (info : String → Option String) (ticker : String) :
    Option String × List (String × String) × Bool :=
  match cacheLookup cache ticker with
  | some e => (some e, cache, false)
  | none =>
    match info ticker with
    | none => (none, cache, true)
    | some raw =>
      match exchange_mapping (strUpper raw) with
      | some exch => (some exch, (ticker, exch) :: cache, true)
      | none => (none, cache, true)

/-- One value of the SEC company-registry JSON: `cik_str`, `ticker`,
`title`. -/
structure RegistryItem where
  cik_str : ℕ
  ticker : String
  title : String
deriving DecidableEq

/-- `str(item['cik_str']).zfill(10)`. -/
def zfill10 (n : ℕ) : String :=
  let s := toString n
  ⟨List.replicate (10 - s.length) '0' ++ s.data⟩

/-- The value stored under each CIK key in `cik_to_ticker`. -/
structure CompanyInfo where
  ticker : String
  title : String
  cik : String
deriving DecidableEq

/-- Outcome of one registry endpoint: `ok` = HTTP 200 with parseable JSON,
`fail` = non-200 status, unparseable body, or request exception (all of
which make the source `continue` to the next endpoint). -/
inductive EndpointResult where
  | ok (items : List RegistryItem)
  | fail
deriving DecidableEq

/-- `SECDelistingScraperOptimized.get_company_tickers`: first successful
endpoint wins; all failing means an empty registry.  (The source builds a
dict keyed by the zero-padded CIK and iterates it in insertion order; it
is modelled as the association list in that order.) -/
def get_company_tickers : List EndpointResult → List (String × CompanyInfo)
  | [] => []
  | .ok items :: _ =>
    items.map fun it =>
      let cik := zfill10 it.cik_str
      (cik, { ticker := it.ticker, title := it.title, cik := cik })
  | .fail :: rest => get_company_tickers rest

/-- One positional entry of `filings.recent` (the source indexes the
parallel arrays `form`, `filingDate`, `accessionNumber`,
`primaryDocument`; the model zips them into records). -/
structure FilingRec where
  form : String
  filingDate : String
  accessionNumber : String
  primaryDocument : String
deriving DecidableEq

/-- The `filing_info` dict built for each qualifying filing. -/
structure Filing where
  ticker : String
  company_name : String
  cik : String
  exchange : String
  form_type : String
  filing_date : String
  accession_number : String
  primary_document : String
  market_cap : Option ℚ
  market_cap_source : String
deriving DecidableEq

/-- The external world seen by one collection run: per-CIK filing history
(`[]` = missing/empty `filings.recent`), the per-ticker exchange oracle,
and the per-(ticker, date) world of each `get_market_cap` call. -/
structure ScrapeWorld where
  submissions : String → List FilingRec
  exchangeInfo : String → Option String
  fetch : String → String → CallWorld

/-- Mutable state threaded through the collection loop of
`find_form25_filings_with_market_cap`. -/
structure CollectState where
  cache : List (String × String)
  fetcher : FetcherState
  all_filings : List Filing
  filings_with_market_cap : List Filing

/-- The body of the inner `for i in range(...)` loop of
`find_form25_filings_with_market_cap`, for one positional filing entry:
form-type check, date-range check, exchange filter, market-cap
resolution, and the two appends. -/
def processEntry (target_exchanges : List String) (max_market_cap : ℚ)
    (w : ScrapeWorld) (start_date end_date : String) (cik : String)
    (ci : CompanyInfo) (st : CollectState) (rec : FilingRec) :
    CollectState :=
  if !(rec.form = "25" || rec.form = "25-NSE") then st
  else if !(strLe start_date rec.filingDate && strLe rec.filingDate end_date)
  then st
  else
    let ex := get_ticker_exchange st.cache w.exchangeInfo ci.ticker
    let st1 := { st with cache := ex.2.1 }
    match ex.1 with
    | none => st1
    | some exch =>
      if exch ∉ target_exchanges then st1
      else
        let r := get_market_cap st1.fetcher (w.fetch ci.ticker rec.filingDate)
        let filing : Filing :=
          { ticker := ci.ticker, company_name := ci.title, cik := cik,
            exchange := exch, form_type := rec.form,
            filing_date := rec.filingDate,
            accession_number := rec.accessionNumber,
            primary_document := rec.primaryDocument,
            market_cap := r.1.1, market_cap_source := r.1.2 }
        let st2 := { st1 with fetcher := r.2.1,
                              all_filings := st1.all_filings ++ [filing] }
        match r.1.1 with
        | some v =>
          if v < max_market_cap then
            { st2 with filings_with_market_cap :=
                st2.filings_with_market_cap ++ [filing] }
          else st2
        | none => st2

/-- `SECDelistingScraperOptimized.find_form25_filings_with_market_cap`,
given an already-fetched registry: iterate companies, iterate each
company's recent filings, thread cache/fetcher state, and accumulate the
two output lists. -/
def find_form25_filings_with_market_cap (target_exchanges : List String)
    (w : ScrapeWorld) (registry : List (String × CompanyInfo))
    (start_date end_date : String) (max_market_cap : ℚ)
    (fetcher0 : FetcherState) : CollectState :=
  registry.foldl
    (fun st p =>
      (w.submissions p.1).foldl
        (processEntry target_exchanges max_market_cap w start_date end_date
          p.1 p.2) st)
    { cache := [], fetcher := fetcher0, all_filings := [],
      filings_with_market_cap := [] }

/-! ## CSV output (`save_to_csv`, `main`) -/

/-- Stable insertion of `x` into `l`; `keep y x = true` means the already
placed element `y` stays in front of `x`. -/
def insertKeep (keep : α → α → Bool) (x : α) : List α → List α
  | [] => [x]
  | y :: ys => if keep y x then y :: insertKeep keep x ys else x :: y :: ys

/-- Insertion sort with the `keep` comparison. -/
def sortKeep (keep : α → α → Bool) : List α → List α
  | [] => []
  | x :: xs => insertKeep keep x (sortKeep keep xs)

/-- `df.sort_values('filing_date', ascending=False)`: sort filings by
filing date, descending.  (Pandas' default quicksort is unstable, so the
relative order of equal dates is unspecified there; the claims proved
below only concern distinct dates, for which any descending sort
agrees.) -/
def sortByDateDesc (l : List Filing) : List Filing :=
  sortKeep (fun g f => strLe f.filing_date g.filing_date) l

/-- `df.drop_duplicates(subset=['ticker'], keep='first')`: keep each row
whose ticker has not been seen in an earlier row. -/
def drop_duplicates_by_ticker (seen : List String) :
    List Filing → List Filing
  | [] => []
  | f :: fs =>
    if f.ticker ∈ seen then drop_duplicates_by_ticker seen fs
    else f :: drop_duplicates_by_ticker (f.ticker :: seen) fs

/-- `df_symbols = df_unique[['ticker']].sort_values('ticker')`. -/
def sortTickers (l : List String) : List String :=
  sortKeep (fun g f => strLe g f) l

/-- `SECDelistingScraperOptimized.save_to_csv`: `none` when the filing
list is empty (early return, nothing written); otherwise the rows of the
main CSV (date-sorted, deduplicated by ticker) and the rows of the
`_symbols_only` companion CSV. -/
def save_to_csv (filings : List Filing) :
    Option (List Filing × List String) :=
  match filings with
  | [] => none
  | _ =>
    let df_unique := drop_duplicates_by_ticker [] (sortByDateDesc filings)
    some (df_unique, sortTickers (df_unique.map (·.ticker)))

/-- The output-file names used by `main`. -/
def OUTPUT_ALL : String := "outputs/delisted_all_2015_2024.csv"

/-- Small-caps output-file name used by `main`. -/
def OUTPUT_SMALL_CAPS : String := "outputs/delisted_small_caps_2015_2024.csv"

/-- `output_file.replace('.csv', '_symbols_only.csv')` applied to the two
output paths. -/
def symbolsName (s : String) : String :=
  if s = OUTPUT_ALL then "outputs/delisted_all_2015_2024_symbols_only.csv"
  else "outputs/delisted_small_caps_2015_2024_symbols_only.csv"

/-- The list of files `main` writes, given the two collected lists:
`main` returns before any save when `all_filings` is empty, and calls
`save_to_csv` on the small-caps list only when it is non-empty
(`save_to_csv` itself also writes nothing for an empty list). -/
def filesWritten (all_filings filings_with_market_cap : List Filing) :
    List String :=
  match all_filings with
  | [] => []
  | _ =>
    [OUTPUT_ALL, symbolsName OUTPUT_ALL] ++
      (match filings_with_market_cap with
       | [] => []
       | _ => [OUTPUT_SMALL_CAPS, symbolsName OUTPUT_SMALL_CAPS])

/-! ## Order lemmas for `lexLe` -/

theorem lexLe_refl (l : List Char) : lexLe l l = true := by
  induction l with
  | nil => rfl
  | cons a as ih => simp [lexLe, ih]

theorem lexLe_total (a b : List Char) :
    lexLe a b = true ∨ lexLe b a = true := by
  induction a generalizing b with
  | nil => left; rfl
  | cons x xs ih =>
    cases b with
    | nil => right; rfl
    | cons y ys =>
      rcases Nat.lt_trichotomy x.toNat y.toNat with h | h | h
      · left; simp [lexLe, h]
      · rcases ih ys with h' | h'
        · left; simp [lexLe, h, h']
        · right; simp [lexLe, h, h']
      · right; simp [lexLe, h]

theorem lexLe_trans {a b c : List Char} (h1 : lexLe a b = true)
    (h2 : lexLe b c = true) : lexLe a c = true := by
  induction a generalizing b c with
  | nil => rfl
  | cons x xs ih =>
    cases b with
    | nil => simp [lexLe] at h1
    | cons y ys =>
      cases c with
      | nil => simp [lexLe] at h2
      | cons z zs =>
        simp only [lexLe] at h1 h2 ⊢
        rcases Nat.lt_trichotomy x.toNat y.toNat with hxy | hxy | hxy
        · rcases Nat.lt_trichotomy y.toNat z.toNat with hyz | hyz | hyz
          · rw [if_pos (Nat.lt_trans hxy hyz)]
          · rw [if_pos (hyz ▸ hxy)]
          · rw [if_neg (by omega), if_pos hyz] at h2
            exact absurd h2 (by simp)
        · rw [if_neg (by omega), if_neg (by omega)] at h1
          rcases Nat.lt_trichotomy y.toNat z.toNat with hyz | hyz | hyz
          · rw [if_pos (by omega)]
          · rw [if_neg (by omega), if_neg (by omega)] at h2
            rw [if_neg (by omega), if_neg (by omega)]
            exact ih h1 h2
          · rw [if_neg (by omega), if_pos hyz] at h2
            exact absurd h2 (by simp)
        · rw [if_neg (by omega), if_pos hxy] at h1
          exact absurd h1 (by simp)

theorem strLe_refl (s : String) : strLe s s = true := lexLe_refl s.data

theorem strLe_total (a b : String) : strLe a b = true ∨ strLe b a = true :=
  lexLe_total a.data b.data

theorem strLe_trans {a b c : String} (h1 : strLe a b = true)
    (h2 : strLe b c = true) : strLe a c = true :=
  lexLe_trans h1 h2

theorem strLt_not_le {a b : String} (h : strLt a b = true) :
    strLe b a = false := by
  simpa [strLt] using h

theorem strLt_of_lt_of_le {a b c : String} (h1 : strLt a b = true)
    (h2 : strLe b c = true) : strLt a c = true := by
  have hba : strLe b a = false := by simpa [strLt] using h1
  cases hca : strLe c a with
  | false => simp [strLt, hca]
  | true => exact absurd (strLe_trans h2 hca) (by simp [hba])

/-! ## Lemmas about `insertKeep` / `sortKeep` -/

theorem mem_insertKeep {keep : α → α → Bool} {x a : α} {l : List α} :
    a ∈ insertKeep keep x l ↔ a = x ∨ a ∈ l := by
  induction l with
  | nil => simp [insertKeep]
  | cons y ys ih =>
    by_cases h : keep y x = true
    · simp only [insertKeep, h, if_true, List.mem_cons, ih]
      tauto
    · simp only [Bool.not_eq_true] at h
      simp only [insertKeep, h, Bool.false_eq_true, if_false, List.mem_cons]

theorem mem_sortKeep {keep : α → α → Bool} {a : α} {l : List α} :
    a ∈ sortKeep keep l ↔ a ∈ l := by
  induction l with
  | nil => simp [sortKeep]
  | cons x xs ih => simp [sortKeep, mem_insertKeep, ih]

theorem pairwise_insertKeep {keep : α → α → Bool} {R : α → α → Prop}
    (hkt : ∀ u v, keep u v = true → R u v)
    (hkf : ∀ u v, keep u v = false → R v u)
    (htrans : ∀ a b c, R a b → R b c → R a c)
    {x : α} {l : List α} (hl : List.Pairwise R l) :
    List.Pairwise R (insertKeep keep x l) := by
  induction l with
  | nil => simp [insertKeep]
  | cons y ys ih =>
    rcases List.pairwise_cons.mp hl with ⟨hy, hys⟩
    by_cases h : keep y x = true
    · simp only [insertKeep, h, if_true]
      refine List.pairwise_cons.mpr ⟨?_, ih hys⟩
      intro z hz
      rcases mem_insertKeep.mp hz with rfl | hz'
      · exact hkt _ _ h
      · exact hy z hz'
    · simp only [Bool.not_eq_true] at h
      simp only [insertKeep, h, Bool.false_eq_true, if_false]
      refine List.pairwise_cons.mpr ⟨?_, hl⟩
      intro z hz
      rcases List.mem_cons.mp hz with rfl | hz'
      · exact hkf _ _ h
      · exact htrans _ _ _ (hkf _ _ h) (hy z hz')

theorem pairwise_sortKeep {keep : α → α → Bool} {R : α → α → Prop}
    (hkt : ∀ u v, keep u v = true → R u v)
    (hkf : ∀ u v, keep u v = false → R v u)
    (htrans : ∀ a b c, R a b → R b c → R a c)
    (l : List α) : List.Pairwise R (sortKeep keep l) := by
  induction l with
  | nil => simp [sortKeep]
  | cons x xs ih =>
    exact pairwise_insertKeep hkt hkf htrans ih

theorem strLt_irrefl (a : String) : strLt a a = false := by
  simp [strLt, strLe_refl]

/-! ## Lemmas about `drop_duplicates_by_ticker` -/

theorem mem_drop_duplicates {seen : List String} {l : List Filing}
    {x : Filing} (h : x ∈ drop_duplicates_by_ticker seen l) :
    x ∈ l ∧ x.ticker ∉ seen := by
  induction l generalizing seen with
  | nil => simp [drop_duplicates_by_ticker] at h
  | cons f fs ih =>
    by_cases hf : f.ticker ∈ seen
    · simp only [drop_duplicates_by_ticker, if_pos hf] at h
      rcases ih h with ⟨h1, h2⟩
      exact ⟨List.mem_cons_of_mem _ h1, h2⟩
    · simp only [drop_duplicates_by_ticker, if_neg hf] at h
      rcases List.mem_cons.mp h with rfl | h'
      · exact ⟨List.mem_cons_self _ _, hf⟩
      · rcases ih h' with ⟨h1, h2⟩
        exact ⟨List.mem_cons_of_mem _ h1,
          fun hs => h2 (List.mem_cons_of_mem _ hs)⟩

/-- In a list sorted by filing date descending, a row that has a
same-ticker row with a strictly later date is dropped by the
deduplication pass. -/
theorem drop_duplicates_drops {seen : List String} {l : List Filing}
    {e1 e2 : Filing}
    (hp : List.Pairwise
      (fun a b => strLe b.filing_date a.filing_date = true) l)
    (h1 : e1 ∈ l) (h2 : e2 ∈ l) (ht : e1.ticker = e2.ticker)
    (hd : strLt e1.filing_date e2.filing_date = true) :
    e1 ∉ drop_duplicates_by_ticker seen l := by
  induction l generalizing seen with
  | nil => simp at h1
  | cons f fs ih =>
    rcases List.pairwise_cons.mp hp with ⟨hf, hfs⟩
    intro hmem
    by_cases hseen : f.ticker ∈ seen
    · simp only [drop_duplicates_by_ticker, if_pos hseen] at hmem
      rcases mem_drop_duplicates hmem with ⟨he1fs, hnot⟩
      rcases List.mem_cons.mp h2 with rfl | h2'
      · exact hnot (ht ▸ hseen)
      · rcases List.mem_cons.mp h1 with rfl | h1'
        · exact hnot hseen
        · exact ih hfs h1' h2' hmem
    · simp only [drop_duplicates_by_ticker, if_neg hseen] at hmem
      rcases List.mem_cons.mp hmem with he | hmem'
      · subst he
        rcases List.mem_cons.mp h2 with rfl | h2'
        · exact absurd hd (by simp [strLt_irrefl])
        · exact absurd (hf e2 h2') (by simp [strLt_not_le hd])
      · rcases mem_drop_duplicates hmem' with ⟨he1fs, hnot⟩
        rcases List.mem_cons.mp h2 with rfl | h2'
        · exact hnot (by simp [ht])
        · exact ih hfs he1fs h2' hmem'

/-- The deduplication pass keeps, for every ticker occurring in a
date-descending sorted list, a row of that ticker whose date is at least
the date of any given row of that ticker. -/
theorem drop_duplicates_keeps {seen : List String} {l : List Filing}
    {x : Filing}
    (hp : List.Pairwise
      (fun a b => strLe b.filing_date a.filing_date = true) l)
    (hx : x ∈ l) (hs : x.ticker ∉ seen) :
    ∃ g ∈ drop_duplicates_by_ticker seen l, g.ticker = x.ticker ∧
      strLe x.filing_date g.filing_date = true := by
  induction l generalizing seen with
  | nil => simp at hx
  | cons f fs ih =>
    rcases List.pairwise_cons.mp hp with ⟨hf, hfs⟩
    by_cases hseen : f.ticker ∈ seen
    · have hxfs : x ∈ fs := by
        rcases List.mem_cons.mp hx with rfl | h
        · exact absurd hseen hs
        · exact h
      rcases ih hfs hxfs hs with ⟨g, hg, hgt, hgd⟩
      exact ⟨g, by simp only [drop_duplicates_by_ticker, if_pos hseen]
                   exact hg,
             hgt, hgd⟩
    · rcases List.mem_cons.mp hx with rfl | hxfs
      · exact ⟨x, by simp only [drop_duplicates_by_ticker, if_neg hseen]
                     exact List.mem_cons_self _ _,
               rfl, strLe_refl _⟩
      · by_cases hxf : x.ticker = f.ticker
        · exact ⟨f, by simp only [drop_duplicates_by_ticker, if_neg hseen]
                       exact List.mem_cons_self _ _,
                 hxf.symm, hf x hxfs⟩
        · have hs' : x.ticker ∉ f.ticker :: seen := by
            simp [hxf, hs]
          rcases ih hfs hxfs hs' with ⟨g, hg, hgt, hgd⟩
          exact ⟨g, by simp only [drop_duplicates_by_ticker, if_neg hseen]
                       exact List.mem_cons_of_mem _ hg,
                 hgt, hgd⟩

/-! ## Per-call lemmas about `get_market_cap` -/

/-- The effective result of strategy 2 within one call: the FMP lookup
result when the guard `self.fmp_api_key and self.fmp_api_working`
(line 125 of the source) passes, `none` otherwise (guard fails, no
request issued). -/
def fmpEffective (st : FetcherState) (w : CallWorld) : Option ℚ :=
  if st.fmp_api_key && st.fmp_api_working then
    (get_from_fmp st.fmp_api_key st.fmp_api_working w.fmp).1
  else none

/-- Sum of the five per-outcome counters. -/
def outcomeSum (s : Stats) : ℕ :=
  s.yahoo_historical + s.fmp_api + s.calculated + s.yahoo_current + s.failed

/-- One `get_market_cap` call bumps exactly one outcome counter (and
`total`). -/
theorem gmc_outcome_cases (st : FetcherState) (w : CallWorld) :
    (get_market_cap st w).2.1.stats =
      { st.stats with
          total := st.stats.total + 1,
          yahoo_historical := st.stats.yahoo_historical + 1 } ∨
    (get_market_cap st w).2.1.stats =
      { st.stats with
          total := st.stats.total + 1,
          fmp_api := st.stats.fmp_api + 1 } ∨
    (get_market_cap st w).2.1.stats =
      { st.stats with
          total := st.stats.total + 1,
          calculated := st.stats.calculated + 1 } ∨
    (get_market_cap st w).2.1.stats =
      { st.stats with
          total := st.stats.total + 1,
          yahoo_current := st.stats.yahoo_current + 1 } ∨
    (get_market_cap st w).2.1.stats =
      { st.stats with
          total := st.stats.total + 1,
          failed := st.stats.failed + 1 } := by
  unfold get_market_cap
  cases h1 : get_yahoo_historical w.hist60 w.info with
  | some v => left; rfl
  | none =>
    cases hA : (st.fmp_api_key && st.fmp_api_working) with
    | true =>
      simp only [hA]
      cases h2 : (get_from_fmp st.fmp_api_key st.fmp_api_working w.fmp).1 with
      | some v => right; left; simp [h2]
      | none =>
        cases h3 : calculate_from_yahoo_data w.hist90 w.info with
        | some v => right; right; left; simp [h2]
        | none =>
          cases h4 : get_yahoo_current w.info with
          | some v => right; right; right; left; simp [h2]
          | none => right; right; right; right; simp [h2]
    | false =>
      simp only [hA]
      cases h3 : calculate_from_yahoo_data w.hist90 w.info with
      | some v => right; right; left; simp
      | none =>
        cases h4 : get_yahoo_current w.info with
        | some v => right; right; right; left; simp
        | none => right; right; right; right; simp

/-- With `fmp_api_working` already cleared, a call leaves the flag
cleared and issues no FMP network request. -/
theorem gmc_disabled (st : FetcherState) (w : CallWorld)
    (h : st.fmp_api_working = false) :
    (get_market_cap st w).2.1.fmp_api_working = false ∧
    (get_market_cap st w).2.2.fmp = 0 := by
  unfold get_market_cap
  cases h1 : get_yahoo_historical w.hist60 w.info with
  | some v => exact ⟨h, rfl⟩
  | none =>
    have hA : (st.fmp_api_key && st.fmp_api_working) = false := by
      simp [h]
    simp only [hA]
    cases h3 : calculate_from_yahoo_data w.hist90 w.info with
    | some v => exact ⟨h, rfl⟩
    | none =>
      cases h4 : get_yahoo_current w.info with
      | some v => exact ⟨h, rfl⟩
      | none => exact ⟨h, rfl⟩

/-- The new `fmp_api_working` flag after one call: unchanged unless the
guarded FMP request ran, in which case it is what `get_from_fmp`
returned. -/
theorem gmc_flag (st : FetcherState) (w : CallWorld) :
    (get_market_cap st w).2.1.fmp_api_working =
      (if get_yahoo_historical w.hist60 w.info = none then
        (if st.fmp_api_key && st.fmp_api_working then
          (get_from_fmp st.fmp_api_key st.fmp_api_working w.fmp).2
        else st.fmp_api_working)
      else st.fmp_api_working) := by
  unfold get_market_cap
  cases h1 : get_yahoo_historical w.hist60 w.info with
  | some v => rfl
  | none =>
    cases hA : (st.fmp_api_key && st.fmp_api_working) with
    | true =>
      simp only [hA, if_true]
      cases h2 : (get_from_fmp st.fmp_api_key st.fmp_api_working w.fmp).1 with
      | some v => simp [h2]
      | none =>
        cases h3 : calculate_from_yahoo_data w.hist90 w.info with
        | some v => simp [h2]
        | none =>
          cases h4 : get_yahoo_current w.info with
          | some v => simp [h2]
          | none => simp [h2]
    | false =>
      simp only [hA]
      cases h3 : calculate_from_yahoo_data w.hist90 w.info with
      | some v => simp
      | none =>
        cases h4 : get_yahoo_current w.info with
        | some v => simp
        | none => simp

/-- Cascade characterization of one call: the first strategy that
produces a value determines the returned pair, and a strategy-1 hit
performs no later-strategy work. -/
theorem gmc_cascade (st : FetcherState) (w : CallWorld) :
    (∀ v, get_yahoo_historical w.hist60 w.info = some v →
      (get_market_cap st w).1 = (some v, "yahoo_historical") ∧
      (get_market_cap st w).2.2 = ⟨1, 0, 0, 0⟩) ∧
    (∀ v, get_yahoo_historical w.hist60 w.info = none →
      fmpEffective st w = some v →
      (get_market_cap st w).1 = (some v, "fmp_api")) ∧
    (∀ v, get_yahoo_historical w.hist60 w.info = none →
      fmpEffective st w = none →
      calculate_from_yahoo_data w.hist90 w.info = some v →
      (get_market_cap st w).1 = (some v, "calculated")) ∧
    (∀ v, get_yahoo_historical w.hist60 w.info = none →
      fmpEffective st w = none →
      calculate_from_yahoo_data w.hist90 w.info = none →
      get_yahoo_current w.info = some v →
      (get_market_cap st w).1 = (some v, "yahoo_current")) ∧
    (get_yahoo_historical w.hist60 w.info = none →
      fmpEffective st w = none →
      calculate_from_yahoo_data w.hist90 w.info = none →
      get_yahoo_current w.info = none →
      (get_market_cap st w).1 = (none, "none")) := by
  refine ⟨?_, ?_, ?_, ?_, ?_⟩
  · intro v hv
    unfold get_market_cap
    simp [hv]
  · intro v h1 hf
    unfold get_market_cap
    simp only [h1]
    cases hA : (st.fmp_api_key && st.fmp_api_working) with
    | true =>
      simp only [fmpEffective, hA, if_true] at hf
      simp [hf]
    | false => simp [fmpEffective, hA] at hf
  · intro v h1 hf h3
    unfold get_market_cap
    simp only [h1]
    cases hA : (st.fmp_api_key && st.fmp_api_working) with
    | true =>
      simp only [fmpEffective, hA, if_true] at hf
      simp [hf, h3]
    | false => simp [hA, h3]
  · intro v h1 hf h3 h4
    unfold get_market_cap
    simp only [h1]
    cases hA : (st.fmp_api_key && st.fmp_api_working) with
    | true =>
      simp only [fmpEffective, hA, if_true] at hf
      simp [hf, h3, h4]
    | false => simp [hA, h3, h4]
  · intro h1 hf h3 h4
    unfold get_market_cap
    simp only [h1]
    cases hA : (st.fmp_api_key && st.fmp_api_working) with
    | true =>
      simp only [fmpEffective, hA, if_true] at hf
      simp [hf, h3, h4]
    | false => simp [hA, h3, h4]

/-- The returned pair is `(some v, strategy)` or `(none, "none")`: value
absence coincides with source `"none"`, and the source is one of the five
possibilities. -/
theorem gmc_pair_cases (st : FetcherState) (w : CallWorld) :
    ((get_market_cap st w).1.1 = none ↔ (get_market_cap st w).1.2 = "none") ∧
    (get_market_cap st w).1.2 ∈
      ["yahoo_historical", "fmp_api", "calculated", "yahoo_current",
       "none"] := by
  unfold get_market_cap
  cases h1 : get_yahoo_historical w.hist60 w.info with
  | some v => simp
  | none =>
    cases hA : (st.fmp_api_key && st.fmp_api_working) with
    | true =>
      simp only [hA]
      cases h2 : (get_from_fmp st.fmp_api_key st.fmp_api_working w.fmp).1 with
      | some v => simp [h2]
      | none =>
        cases h3 : calculate_from_yahoo_data w.hist90 w.info with
        | some v => simp [h2]
        | none =>
          cases h4 : get_yahoo_current w.info with
          | some v => simp [h2]
          | none => simp [h2]
    | false =>
      simp only [hA]
      cases h3 : calculate_from_yahoo_data w.hist90 w.info with
      | some v => simp
      | none =>
        cases h4 : get_yahoo_current w.info with
        | some v => simp
        | none => simp

/-- A guarded FMP request answered 401 or 429 clears the
`fmp_api_working` flag. -/
theorem gmc_auth_fail (st : FetcherState) (w : CallWorld) (r : FmpResponse)
    (hk : st.fmp_api_key = true) (hw : st.fmp_api_working = true)
    (hr : w.fmp = some r) (hs : r.status = 401 ∨ r.status = 429)
    (h1 : get_yahoo_historical w.hist60 w.info = none) :
    (get_market_cap st w).2.1.fmp_api_working = false := by
  rw [gmc_flag]
  rcases hs with hs | hs <;>
    simp [h1, hk, hw, hr, get_from_fmp, hs]

/-- A guarded FMP request answered 403 misses without touching the
`fmp_api_working` flag. -/
theorem gmc_tier_miss (st : FetcherState) (w : CallWorld) (r : FmpResponse)
    (hk : st.fmp_api_key = true) (hw : st.fmp_api_working = true)
    (hr : w.fmp = some r) (hs : r.status = 403) :
    (get_market_cap st w).2.1.fmp_api_working = st.fmp_api_working ∧
    fmpEffective st w = none := by
  constructor
  · rw [gmc_flag]
    split
    · simp [hk, hw, hr, get_from_fmp, hs]
    · rfl
  · simp [fmpEffective, hk, hw, hr, get_from_fmp, hs]

/-- A cleared flag stays cleared across a whole run and no FMP request is
ever issued again. -/
theorem runCalls_disabled (st : FetcherState) (ws : List CallWorld)
    (h : st.fmp_api_working = false) :
    (runCallsFmpCount st ws).1.fmp_api_working = false ∧
    (runCallsFmpCount st ws).2 = 0 := by
  induction ws generalizing st with
  | nil => exact ⟨h, rfl⟩
  | cons w ws ih =>
    rcases gmc_disabled st w h with ⟨h1, h2⟩
    rcases ih _ h1 with ⟨h3, h4⟩
    simp [runCallsFmpCount, h2, h3, h4]

/-- The `total = Σ outcomes` invariant is preserved by every call. -/
theorem runCalls_stats_inv (st : FetcherState) (ws : List CallWorld)
    (h : st.stats.total = outcomeSum st.stats) :
    (runCalls st ws).stats.total = outcomeSum (runCalls st ws).stats := by
  induction ws generalizing st with
  | nil => exact h
  | cons w ws ih =>
    show (runCalls (get_market_cap st w).2.1 ws).stats.total = _
    apply ih
    rcases gmc_outcome_cases st w with h5 | h5 | h5 | h5 | h5 <;>
      · rw [h5]
        simp only [outcomeSum] at h ⊢
        omega

/-- C1: `resolve(ticker, date)` tries the four strategies in the fixed
order yahoo_historical, fmp_api, calculated, yahoo_current, returns the
first success together with that strategy's name, and when strategy 1
succeeds, strategies 2–4 are never invoked (strategy-2/3/4 call counts
are zero). -/
theorem resolver_cascade_order (st : FetcherState) (w : CallWorld) :
    (∀ v, get_yahoo_historical w.hist60 w.info = some v →
      (get_market_cap st w).1 = (some v, "yahoo_historical") ∧
      (get_market_cap st w).2.2 = ⟨1, 0, 0, 0⟩) ∧
    (∀ v, get_yahoo_historical w.hist60 w.info = none →
      fmpEffective st w = some v →
      (get_market_cap st w).1 = (some v, "fmp_api")) ∧
    (∀ v, get_yahoo_historical w.hist60 w.info = none →
      fmpEffective st w = none →
      calculate_from_yahoo_data w.hist90 w.info = some v →
      (get_market_cap st w).1 = (some v, "calculated")) ∧
    (∀ v, get_yahoo_historical w.hist60 w.info = none →
      fmpEffective st w = none →
      calculate_from_yahoo_data w.hist90 w.info = none →
      get_yahoo_current w.info = some v →
      (get_market_cap st w).1 = (some v, "yahoo_current")) ∧
    (get_yahoo_historical w.hist60 w.info = none →
      fmpEffective st w = none →
      calculate_from_yahoo_data w.hist90 w.info = none →
      get_yahoo_current w.info = none →
      (get_market_cap st w).1 = (none, "none")) :=
  gmc_cascade st w

/-- C5: a 401 or 429 on the guarded FMP request clears the
working flag; with the flag cleared, every subsequent call of the run
skips strategy 2 and issues zero FMP network requests; a 403 leaves the
flag untouched and only misses that one lookup. -/
theorem fmp_persistent_disable :
    (∀ st w r, st.fmp_api_key = true → st.fmp_api_working = true →
      w.fmp = some r → (r.status = 401 ∨ r.status = 429) →
      get_yahoo_historical w.hist60 w.info = none →
      (get_market_cap st w).2.1.fmp_api_working = false) ∧
    (∀ st ws, st.fmp_api_working = false →
      (runCallsFmpCount st ws).1.fmp_api_working = false ∧
      (runCallsFmpCount st ws).2 = 0) ∧
    (∀ st w r, st.fmp_api_key = true → st.fmp_api_working = true →
      w.fmp = some r → r.status = 403 →
      (get_market_cap st w).2.1.fmp_api_working = st.fmp_api_working ∧
      fmpEffective st w = none) :=
  ⟨gmc_auth_fail, runCalls_disabled, gmc_tier_miss⟩

/-- C8: each resolve call records exactly one of the five outcomes and
bumps `total` by one, so `total = Σ outcomes` holds after any sequence of
calls from a fresh fetcher. -/
theorem stats_total_invariant :
    (∀ st w,
      ((get_market_cap st w).2.1.stats.total = st.stats.total + 1) ∧
      ((get_market_cap st w).2.1.stats =
        { st.stats with
            total := st.stats.total + 1,
            yahoo_historical := st.stats.yahoo_historical + 1 } ∨
       (get_market_cap st w).2.1.stats =
        { st.stats with
            total := st.stats.total + 1,
            fmp_api := st.stats.fmp_api + 1 } ∨
       (get_market_cap st w).2.1.stats =
        { st.stats with
            total := st.stats.total + 1,
            calculated := st.stats.calculated + 1 } ∨
       (get_market_cap st w).2.1.stats =
        { st.stats with
            total := st.stats.total + 1,
            yahoo_current := st.stats.yahoo_current + 1 } ∨
       (get_market_cap st w).2.1.stats =
        { st.stats with
            total := st.stats.total + 1,
            failed := st.stats.failed + 1 })) ∧
    (∀ key validated ws,
      (runCalls (FetcherState.init key validated) ws).stats.total =
        outcomeSum (runCalls (FetcherState.init key validated) ws).stats) := by
  constructor
  · intro st w
    refine ⟨?_, gmc_outcome_cases st w⟩
    rcases gmc_outcome_cases st w with h | h | h | h | h <;> rw [h]
  · intro key validated ws
    exact runCalls_stats_inv _ _ (by simp [FetcherState.init, Stats.init,
      outcomeSum])

/-! ## Lemmas about the collection loop -/

/-- Generic foldl invariant preservation. -/
theorem foldl_inv {β : Type _} {γ : Type _} {P : β → Prop}
    (step : β → γ → β) (h : ∀ s x, P s → P (step s x)) :
    ∀ (l : List γ) (s : β), P s → P (l.foldl step s)
  | [], _, hs => hs
  | x :: xs, s, hs => foldl_inv step h xs (step s x) (h s x hs)

/-- Each inner-loop step either leaves both output lists unchanged, or
appends exactly one filing — whose market-cap fields come from the
`get_market_cap` call and whose exchange lies in the target set — to
`all_filings`, appending it to the small-cap list exactly when its value
is present and strictly below the threshold. -/
theorem processEntry_shape (target : List String) (maxCap : ℚ)
    (w : ScrapeWorld) (sd ed cik : String) (ci : CompanyInfo)
    (st : CollectState) (rec : FilingRec) :
    ((processEntry target maxCap w sd ed cik ci st rec).all_filings =
        st.all_filings ∧
     (processEntry target maxCap w sd ed cik ci st
        rec).filings_with_market_cap = st.filings_with_market_cap) ∨
    (∃ g : Filing,
      g.market_cap =
        (get_market_cap st.fetcher (w.fetch ci.ticker rec.filingDate)).1.1 ∧
      g.market_cap_source =
        (get_market_cap st.fetcher (w.fetch ci.ticker rec.filingDate)).1.2 ∧
      g.exchange ∈ target ∧
      (processEntry target maxCap w sd ed cik ci st rec).all_filings =
        st.all_filings ++ [g] ∧
      (((∃ v, g.market_cap = some v ∧ v < maxCap) ∧
        (processEntry target maxCap w sd ed cik ci st
           rec).filings_with_market_cap =
          st.filings_with_market_cap ++ [g]) ∨
       ((¬ ∃ v, g.market_cap = some v ∧ v < maxCap) ∧
        (processEntry target maxCap w sd ed cik ci st
           rec).filings_with_market_cap =
          st.filings_with_market_cap))) := by
  unfold processEntry
  dsimp only
  split
  · exact Or.inl ⟨rfl, rfl⟩
  · split
    · exact Or.inl ⟨rfl, rfl⟩
    · split
      · exact Or.inl ⟨rfl, rfl⟩
      · rename_i exch heq
        split
        · exact Or.inl ⟨rfl, rfl⟩
        · rename_i hmem
          right
          split
          · rename_i v hv
            split
            · rename_i hlt
              exact ⟨_, rfl, rfl, not_not.mp hmem, rfl,
                Or.inl ⟨⟨v, hv, hlt⟩, rfl⟩⟩
            · rename_i hlt
              refine ⟨_, rfl, rfl, not_not.mp hmem, rfl,
                Or.inr ⟨?_, rfl⟩⟩
              rintro ⟨v', hv', hlt'⟩
              have hv'' :
                  (get_market_cap st.fetcher
                    (w.fetch ci.ticker rec.filingDate)).1.1 = some v' := hv'
              rw [hv] at hv''
              exact hlt (Option.some_inj.mp hv'' ▸ hlt')
          · rename_i hv
            refine ⟨_, rfl, rfl, not_not.mp hmem, rfl,
              Or.inr ⟨?_, rfl⟩⟩
            rintro ⟨v', hv', hlt'⟩
            have hv'' :
                (get_market_cap st.fetcher
                  (w.fetch ci.ticker rec.filingDate)).1.1 = some v' := hv'
            rw [hv] at hv''
            exact Option.noConfusion hv''

/-- Invariants preserved by every inner-loop step hold of the final
collection state. -/
theorem collect_inv {P : CollectState → Prop} (target : List String)
    (maxCap : ℚ) (w : ScrapeWorld)
    (registry : List (String × CompanyInfo)) (sd ed : String)
    (f0 : FetcherState)
    (hstep : ∀ cik ci st rec, P st →
      P (processEntry target maxCap w sd ed cik ci st rec))
    (hinit : P ⟨[], f0, [], []⟩) :
    P (find_form25_filings_with_market_cap target w registry sd ed maxCap
        f0) := by
  unfold find_form25_filings_with_market_cap
  refine foldl_inv _ ?_ registry _ hinit
  intro s p hp
  exact foldl_inv _ (fun s' rec h => hstep p.1 p.2 s' rec h) _ _ hp

/-- C2: for every FilingEvent appended to either output list, the market
cap is present exactly when the source is not `"none"`; at the resolver
level every call returns either a value with one of the four strategy
names or no value with `"none"`. -/
theorem market_cap_iff_source :
    (∀ st w,
      ((get_market_cap st w).1.1 = none ↔
        (get_market_cap st w).1.2 = "none") ∧
      (get_market_cap st w).1.2 ∈
        ["yahoo_historical", "fmp_api", "calculated", "yahoo_current",
         "none"]) ∧
    (∀ target w registry sd ed maxCap f0 f,
      (f ∈ (find_form25_filings_with_market_cap target w registry sd ed
              maxCap f0).all_filings ∨
       f ∈ (find_form25_filings_with_market_cap target w registry sd ed
              maxCap f0).filings_with_market_cap) →
      (f.market_cap ≠ none ↔ f.market_cap_source ≠ "none")) := by
  refine ⟨gmc_pair_cases, ?_⟩
  intro target w registry sd ed maxCap f0 f
  refine collect_inv target maxCap w registry sd ed f0
    (P := fun st => ∀ g,
      (g ∈ st.all_filings ∨ g ∈ st.filings_with_market_cap) →
      (g.market_cap ≠ none ↔ g.market_cap_source ≠ "none")) ?_ (by simp) f
  intro cik ci st rec hP g hg
  rcases processEntry_shape target maxCap w sd ed cik ci st rec with
    ⟨ha, hs⟩ | ⟨g0, hmc, hsrc, _, ha, hsm⟩
  · rw [ha, hs] at hg
    exact hP g hg
  · have hg0 : (g0.market_cap ≠ none ↔ g0.market_cap_source ≠ "none") := by
      rw [hmc, hsrc]
      exact not_congr
        (gmc_pair_cases st.fetcher (w.fetch ci.ticker rec.filingDate)).1
    rcases hg with hga | hgs
    · rw [ha] at hga
      rcases List.mem_append.mp hga with h' | h'
      · exact hP g (Or.inl h')
      · rw [List.mem_singleton.mp h']
        exact hg0
    · rcases hsm with ⟨_, hsmEq⟩ | ⟨_, hsmEq⟩
      · rw [hsmEq] at hgs
        rcases List.mem_append.mp hgs with h' | h'
        · exact hP g (Or.inr h')
        · rw [List.mem_singleton.mp h']
          exact hg0
      · rw [hsmEq] at hgs
        exact hP g (Or.inr hgs)

/-- C3: a FilingEvent is in the small-cap output list exactly when it is
in the all-events list with a present market cap strictly below the
threshold. -/
theorem small_cap_membership (target : List String) (w : ScrapeWorld)
    (registry : List (String × CompanyInfo)) (sd ed : String)
    (maxCap : ℚ) (f0 : FetcherState) (f : Filing) :
    f ∈ (find_form25_filings_with_market_cap target w registry sd ed
          maxCap f0).filings_with_market_cap ↔
      (f ∈ (find_form25_filings_with_market_cap target w registry sd ed
              maxCap f0).all_filings ∧
       ∃ v, f.market_cap = some v ∧ v < maxCap) := by
  refine collect_inv target maxCap w registry sd ed f0
    (P := fun st => ∀ g, g ∈ st.filings_with_market_cap ↔
      (g ∈ st.all_filings ∧ ∃ v, g.market_cap = some v ∧ v < maxCap))
    ?_ (by simp) f
  intro cik ci st rec hP g
  rcases processEntry_shape target maxCap w sd ed cik ci st rec with
    ⟨ha, hs⟩ | ⟨g0, _, _, _, ha, hsm⟩
  · rw [ha, hs]
    exact hP g
  · rcases hsm with ⟨hc, hsmEq⟩ | ⟨hnc, hsmEq⟩
    · rw [hsmEq, ha]
      simp only [List.mem_append, List.mem_singleton]
      constructor
      · rintro (hgs | rfl)
        · rcases (hP g).mp hgs with ⟨hall, hv⟩
          exact ⟨Or.inl hall, hv⟩
        · exact ⟨Or.inr rfl, hc⟩
      · rintro ⟨hall | rfl, hv⟩
        · exact Or.inl ((hP g).mpr ⟨hall, hv⟩)
        · exact Or.inr rfl
    · rw [hsmEq, ha]
      simp only [List.mem_append, List.mem_singleton]
      constructor
      · intro hgs
        rcases (hP g).mp hgs with ⟨hall, hv⟩
        exact ⟨Or.inl hall, hv⟩
      · rintro ⟨hall | rfl, hv⟩
        · exact (hP g).mpr ⟨hall, hv⟩
        · exact absurd hv hnc

/-- C6: an entry is excluded from both output lists when its ticker's
exchange does not resolve into the target set, and every collected event
carries an exchange in the target set. -/
theorem exchange_hard_filter :
    (∀ target maxCap w sd ed cik ci st rec,
      (∀ e : String,
        (get_ticker_exchange st.cache w.exchangeInfo ci.ticker).1 = some e →
        e ∉ target) →
      (processEntry target maxCap w sd ed cik ci st rec).all_filings =
        st.all_filings ∧
      (processEntry target maxCap w sd ed cik ci st
        rec).filings_with_market_cap = st.filings_with_market_cap) ∧
    (∀ target w registry sd ed maxCap f0 f,
      (f ∈ (find_form25_filings_with_market_cap target w registry sd ed
              maxCap f0).all_filings ∨
       f ∈ (find_form25_filings_with_market_cap target w registry sd ed
              maxCap f0).filings_with_market_cap) →
      f.exchange ∈ target) := by
  constructor
  · intro target maxCap w sd ed cik ci st rec hexcl
    unfold processEntry
    dsimp only
    split
    · exact ⟨rfl, rfl⟩
    · split
      · exact ⟨rfl, rfl⟩
      · split
        · exact ⟨rfl, rfl⟩
        · rename_i exch heq
          split
          · exact ⟨rfl, rfl⟩
          · rename_i hmem
            exact absurd (hexcl exch heq) hmem
  · intro target w registry sd ed maxCap f0 f
    refine collect_inv target maxCap w registry sd ed f0
      (P := fun st => ∀ g,
        (g ∈ st.all_filings ∨ g ∈ st.filings_with_market_cap) →
        g.exchange ∈ target) ?_ (by simp) f
    intro cik ci st rec hP g hg
    rcases processEntry_shape target maxCap w sd ed cik ci st rec with
      ⟨ha, hs⟩ | ⟨g0, _, _, hex, ha, hsm⟩
    · rw [ha, hs] at hg
      exact hP g hg
    · rcases hg with hga | hgs
      · rw [ha] at hga
        rcases List.mem_append.mp hga with h' | h'
        · exact hP g (Or.inl h')
        · rw [List.mem_singleton.mp h']
          exact hex
      · rcases hsm with ⟨_, hsmEq⟩ | ⟨_, hsmEq⟩
        · rw [hsmEq] at hgs
          rcases List.mem_append.mp hgs with h' | h'
          · exact hP g (Or.inr h')
          · rw [List.mem_singleton.mp h']
            exact hex
        · rw [hsmEq] at hgs
          exact hP g (Or.inr hgs)

/-- With every endpoint failing, the registry comes back empty. -/
theorem get_company_tickers_empty (rs : List EndpointResult)
    (h : ∀ r ∈ rs, r = EndpointResult.fail) :
    get_company_tickers rs = [] := by
  induction rs with
  | nil => rfl
  | cons r rest ih =>
    have hr := h r (List.mem_cons_self r rest)
    subst hr
    exact ih (fun x hx => h x (List.mem_cons_of_mem _ hx))

/-- C7: when all three registry endpoints fail, `get_company_tickers`
returns the empty mapping, the collection produces two empty lists, and
`main` writes no output files. -/
theorem registry_total_failure (rs : List EndpointResult)
    (h : ∀ r ∈ rs, r = EndpointResult.fail) :
    get_company_tickers rs = [] ∧
    (∀ target w sd ed maxCap f0,
      (find_form25_filings_with_market_cap target w
        (get_company_tickers rs) sd ed maxCap f0).all_filings = [] ∧
      (find_form25_filings_with_market_cap target w
        (get_company_tickers rs) sd ed maxCap
        f0).filings_with_market_cap = [] ∧
      filesWritten
        (find_form25_filings_with_market_cap target w
          (get_company_tickers rs) sd ed maxCap f0).all_filings
        (find_form25_filings_with_market_cap target w
          (get_company_tickers rs) sd ed maxCap
          f0).filings_with_market_cap = []) := by
  have he := get_company_tickers_empty rs h
  refine ⟨he, ?_⟩
  intro target w sd ed maxCap f0
  rw [he]
  exact ⟨rfl, rfl, rfl⟩

/-- The four exchange names the code-to-exchange table can produce. -/
def exchangeOutputs : List String := ["NYSE", "NASDAQ", "AMEX", "NYSE ARCA"]

/-- Every output of the fixed mapping table is one of the four names. -/
theorem exchange_mapping_range (raw e : String)
    (h : exchange_mapping raw = some e) : e ∈ exchangeOutputs := by
  unfold exchange_mapping at h
  split_ifs at h <;> simp_all [exchangeOutputs]

/-- Behaviour of one `_get_ticker_exchange` call: a failed resolution
leaves the cache untouched, an uncached ticker always triggers the
external lookup (and stays uncached after a failure), and every cache
entry was either already present or maps the looked-up ticker to a
table output. -/
theorem gte_spec (cache : List (String × String))
    (info : String → Option String) (t : String) :
    ((get_ticker_exchange cache info t).1 = none →
      (get_ticker_exchange cache info t).2.1 = cache) ∧
    (cacheLookup cache t = none →
      (get_ticker_exchange cache info t).2.2 = true) ∧
    (cacheLookup cache t = none →
      (get_ticker_exchange cache info t).1 = none →
      cacheLookup (get_ticker_exchange cache info t).2.1 t = none) ∧
    (∀ p ∈ (get_ticker_exchange cache info t).2.1,
      p ∈ cache ∨ (p.1 = t ∧ p.2 ∈ exchangeOutputs)) := by
  cases hc : cacheLookup cache t with
  | some e =>
    have he : get_ticker_exchange cache info t = (some e, cache, false) := by
      unfold get_ticker_exchange
      simp only [hc]
    rw [he]
    refine ⟨?_, ?_, ?_, ?_⟩
    · intro h
      simp at h
    · intro h
      exact Option.noConfusion h
    · intro h
      exact Option.noConfusion h
    · exact fun p hp => Or.inl hp
  | none =>
    cases hi : info t with
    | none =>
      have he : get_ticker_exchange cache info t = (none, cache, true) := by
        unfold get_ticker_exchange
        simp only [hc, hi]
      rw [he]
      exact ⟨fun _ => rfl, fun _ => rfl, fun _ _ => hc,
        fun p hp => Or.inl hp⟩
    | some raw =>
      cases hm : exchange_mapping (strUpper raw) with
      | none =>
        have he : get_ticker_exchange cache info t = (none, cache, true) := by
          unfold get_ticker_exchange
          simp only [hc, hi, hm]
        rw [he]
        exact ⟨fun _ => rfl, fun _ => rfl, fun _ _ => hc,
          fun p hp => Or.inl hp⟩
      | some exch =>
        have he : get_ticker_exchange cache info t =
            (some exch, (t, exch) :: cache, true) := by
          unfold get_ticker_exchange
          simp only [hc, hi, hm]
        rw [he]
        refine ⟨?_, ?_, ?_, ?_⟩
        · intro h
          simp at h
        · intro h
          rfl
        · intro h h'
          simp at h'
        · intro p hp
          rcases List.mem_cons.mp hp with rfl | hp'
          · exact Or.inr ⟨rfl, exchange_mapping_range _ _ hm⟩
          · exact Or.inl hp'

/-- Each inner-loop step either keeps the exchange cache or replaces it
with the cache returned by the `_get_ticker_exchange` call. -/
theorem processEntry_cache (target : List String) (maxCap : ℚ)
    (w : ScrapeWorld) (sd ed cik : String) (ci : CompanyInfo)
    (st : CollectState) (rec : FilingRec) :
    (processEntry target maxCap w sd ed cik ci st rec).cache = st.cache ∨
    (processEntry target maxCap w sd ed cik ci st rec).cache =
      (get_ticker_exchange st.cache w.exchangeInfo ci.ticker).2.1 := by
  unfold processEntry
  dsimp only
  split
  · exact Or.inl rfl
  · split
    · exact Or.inl rfl
    · split
      · exact Or.inr rfl
      · split
        · exact Or.inr rfl
        · split
          · split
            · exact Or.inr rfl
            · exact Or.inr rfl
          · exact Or.inr rfl

/-- C10: the exchange cache is written only on successful resolution —
failed lookups leave the cache unchanged and the uncached ticker keeps
triggering external lookups — and every value ever cached during a
collection run is one of the mapping table's outputs. -/
theorem exchange_cache_write_once :
    (∀ cache info t,
      ((get_ticker_exchange cache info t).1 = none →
        (get_ticker_exchange cache info t).2.1 = cache) ∧
      (cacheLookup cache t = none →
        (get_ticker_exchange cache info t).2.2 = true) ∧
      (cacheLookup cache t = none →
        (get_ticker_exchange cache info t).1 = none →
        cacheLookup (get_ticker_exchange cache info t).2.1 t = none) ∧
      (∀ p ∈ (get_ticker_exchange cache info t).2.1,
        p ∈ cache ∨ (p.1 = t ∧ p.2 ∈ exchangeOutputs))) ∧
    (∀ target w registry sd ed maxCap f0,
      ∀ p ∈ (find_form25_filings_with_market_cap target w registry sd ed
              maxCap f0).cache, p.2 ∈ exchangeOutputs) := by
  refine ⟨gte_spec, ?_⟩
  intro target w registry sd ed maxCap f0
  refine collect_inv target maxCap w registry sd ed f0
    (P := fun st => ∀ p ∈ st.cache, p.2 ∈ exchangeOutputs) ?_ (by simp)
  intro cik ci st rec hP p hp
  rcases processEntry_cache target maxCap w sd ed cik ci st rec with
    hcEq | hcEq
  · rw [hcEq] at hp
    exact hP p hp
  · rw [hcEq] at hp
    rcases (gte_spec st.cache w.exchangeInfo ci.ticker).2.2.2 p hp with
      h' | ⟨_, h'⟩
    · exact hP p h'
    · exact h'

/-! ## Sanity-bound facts (claim C4) -/

/-- An info dict with one share outstanding, so the computed market cap
equals the closing price. -/
def infoShares1 : InfoDict := ⟨some 1, none, none, none⟩

/-- C4 counterexample: with close 1000 and 1 share outstanding the
computed market cap is exactly 1,000, and both sanity-bound strategies
reject it — the claim's "exactly 1,000 is accepted" fails on the strict
`1_000 < market_cap` comparison of the source. -/
theorem sanity_bound_1000_rejected :
    get_yahoo_historical (some [1000]) (some infoShares1) = none ∧
    calculate_from_yahoo_data (some [1000]) (some infoShares1) = none := by
  constructor <;>
    norm_num [get_yahoo_historical, calculate_from_yahoo_data, infoShares1]

/-- Any value accepted by `_get_yahoo_historical` lies strictly inside
the sanity bounds. -/
theorem yahoo_historical_bounds (hist : Option (List ℚ))
    (info : Option InfoDict) (v : ℚ)
    (h : get_yahoo_historical hist info = some v) :
    1000 < v ∧ v < 1000000000000 := by
  cases hist with
  | none => simp [get_yahoo_historical] at h
  | some l =>
    cases l with
    | nil => simp [get_yahoo_historical] at h
    | cons p ps =>
      cases info with
      | none => simp [get_yahoo_historical] at h
      | some i =>
        cases hso : i.sharesOutstanding with
        | none => simp [get_yahoo_historical, hso] at h
        | some sh =>
          simp only [get_yahoo_historical, hso] at h
          split_ifs at h with h1 h2
          · injection h with h'
            subst h'
            exact h2

/-- Any value accepted by `_calculate_from_yahoo_data` lies strictly
inside the sanity bounds. -/
theorem calculate_bounds (hist : Option (List ℚ))
    (info : Option InfoDict) (v : ℚ)
    (h : calculate_from_yahoo_data hist info = some v) :
    1000 < v ∧ v < 1000000000000 := by
  cases hist with
  | none => simp [calculate_from_yahoo_data] at h
  | some l =>
    cases l with
    | nil => simp [calculate_from_yahoo_data] at h
    | cons p ps =>
      cases info with
      | none => simp [calculate_from_yahoo_data] at h
      | some i =>
        simp only [calculate_from_yahoo_data] at h
        split at h
        · exact Option.noConfusion h
        · split_ifs at h with h1 h2
          injection h with h'
          subst h'
          exact h2

/-- C4 amended: both sanity-bound strategies accept only values strictly
between 1,000 and 1×10¹²; at the boundaries, a computed market cap of
999 is rejected, 1,000 is rejected (not accepted), 999,999,999,999 is
accepted, and 1×10¹² is rejected. -/
theorem sanity_bounds_strict :
    (∀ hist info v, get_yahoo_historical hist info = some v →
      1000 < v ∧ v < 1000000000000) ∧
    (∀ hist info v, calculate_from_yahoo_data hist info = some v →
      1000 < v ∧ v < 1000000000000) ∧
    (get_yahoo_historical (some [999]) (some infoShares1) = none ∧
     get_yahoo_historical (some [1000]) (some infoShares1) = none ∧
     get_yahoo_historical (some [999999999999]) (some infoShares1) =
       some 999999999999 ∧
     get_yahoo_historical (some [1000000000000]) (some infoShares1) =
       none) ∧
    (calculate_from_yahoo_data (some [999]) (some infoShares1) = none ∧
     calculate_from_yahoo_data (some [1000]) (some infoShares1) = none ∧
     calculate_from_yahoo_data (some [999999999999]) (some infoShares1) =
       some 999999999999 ∧
     calculate_from_yahoo_data (some [1000000000000]) (some infoShares1) =
       none) := by
  refine ⟨yahoo_historical_bounds, calculate_bounds, ?_, ?_⟩ <;>
    refine ⟨?_, ?_, ?_, ?_⟩ <;>
      norm_num [get_yahoo_historical, calculate_from_yahoo_data,
        infoShares1]

/-! ## Deduplication (claim C9) -/

/-- The date-descending sort is a permutation up to membership. -/
theorem mem_sortByDateDesc {l : List Filing} {f : Filing} :
    f ∈ sortByDateDesc l ↔ f ∈ l := mem_sortKeep

/-- The date-descending sort is pairwise sorted. -/
theorem pairwise_sortByDateDesc (l : List Filing) :
    List.Pairwise (fun a b => strLe b.filing_date a.filing_date = true)
      (sortByDateDesc l) := by
  refine pairwise_sortKeep ?_ ?_ ?_ l
  · exact fun u v h => h
  · intro u v h
    rcases strLe_total u.filing_date v.filing_date with h' | h'
    · exact h'
    · rw [h'] at h
      exact Bool.noConfusion h
  · exact fun a b c h1 h2 => strLe_trans h2 h1

/-- C9: in `save_to_csv`, of two same-ticker events with different filing
dates only the one with the later date survives into the written rows
(the survivor for that ticker carries a strictly later date than the
dropped event), and the companion symbols file holds exactly the
tickers of the written rows, sorted. -/
theorem dedupe_latest_wins (l : List Filing) (e1 e2 : Filing)
    (h1 : e1 ∈ l) (h2 : e2 ∈ l) (ht : e1.ticker = e2.ticker)
    (hd : strLt e1.filing_date e2.filing_date = true) :
    ∃ rows syms, save_to_csv l = some (rows, syms) ∧
      e1 ∉ rows ∧
      (∃ g ∈ rows, g.ticker = e1.ticker ∧
        strLt e1.filing_date g.filing_date = true) ∧
      (∀ s, s ∈ syms ↔ s ∈ rows.map (fun f => f.ticker)) ∧
      List.Pairwise (fun a b => strLe a b = true) syms := by
  cases l with
  | nil => simp at h1
  | cons a as =>
    have hp := pairwise_sortByDateDesc (a :: as)
    have h1s : e1 ∈ sortByDateDesc (a :: as) := mem_sortByDateDesc.mpr h1
    have h2s : e2 ∈ sortByDateDesc (a :: as) := mem_sortByDateDesc.mpr h2
    refine ⟨drop_duplicates_by_ticker [] (sortByDateDesc (a :: as)),
      sortTickers ((drop_duplicates_by_ticker []
        (sortByDateDesc (a :: as))).map (fun f => f.ticker)),
      ?_, ?_, ?_, ?_, ?_⟩
    · rfl
    · exact drop_duplicates_drops hp h1s h2s ht hd
    · rcases drop_duplicates_keeps hp h2s (List.not_mem_nil _) with
        ⟨g, hg, hgt, hgd⟩
      exact ⟨g, hg, by rw [hgt, ht], strLt_of_lt_of_le hd hgd⟩
    · intro s
      exact mem_sortKeep
    · refine pairwise_sortKeep ?_ ?_ ?_ _
      · exact fun u v h => h
      · intro u v h
        rcases strLe_total v u with h' | h'
        · exact h'
        · rw [h'] at h
          exact Bool.noConfusion h
      · exact fun x y z hx hy => strLe_trans hx hy

/-! ## Concrete fixtures and witnesses -/

/-- A call world where every external lookup fails. -/
def wfail : CallWorld := ⟨none, none, none, none⟩

/-- A call world where strategy 1 succeeds with market cap 50,000,000. -/
def wYahooHit : CallWorld :=
  ⟨some [50000000], none, some infoShares1, none⟩

theorem resolver_cascade_order_witness :
    (get_market_cap (FetcherState.init false false) wYahooHit).1 =
      (some 50000000, "yahoo_historical") ∧
    (get_market_cap (FetcherState.init false false) wYahooHit).2.2 =
      ⟨1, 0, 0, 0⟩ :=
  (resolver_cascade_order (FetcherState.init false false) wYahooHit).1
    50000000 (by norm_num [get_yahoo_historical, wYahooHit, infoShares1])

/-- One delisting filing record. -/
def rec25 : FilingRec := ⟨"25", "2020-06-15", "acc-1", "doc.htm"⟩

/-- One registry company. -/
def acmeInfo : CompanyInfo := ⟨"ABCD", "Acme Corp", "0000000001"⟩

/-- The default target exchanges. -/
def targetSet : List String := ["NYSE", "NASDAQ", "AMEX"]

/-- A world where the one company has one Form 25 filing, the exchange
resolves to NASDAQ, and every market-cap lookup fails. -/
def worldNasdaq : ScrapeWorld :=
  ⟨fun _ => [rec25], fun _ => some "NMS", fun _ _ => wfail⟩

/-- A one-company registry. -/
def registry1 : List (String × CompanyInfo) := [("0000000001", acmeInfo)]

/-- The filing that `worldNasdaq` produces. -/
def filingNasdaq : Filing :=
  ⟨"ABCD", "Acme Corp", "0000000001", "NASDAQ", "25", "2020-06-15",
   "acc-1", "doc.htm", none, "none"⟩

theorem market_cap_iff_source_witness :
    filingNasdaq.market_cap ≠ none ↔
      filingNasdaq.market_cap_source ≠ "none" :=
  (market_cap_iff_source).2 targetSet worldNasdaq registry1 "2015-01-01"
    "2024-12-31" 2000000000 (FetcherState.init false false) filingNasdaq
    (Or.inl (by decide))

theorem sanity_bounds_strict_witness :
    (1000 : ℚ) < 999999999999 ∧ (999999999999 : ℚ) < 1000000000000 :=
  (sanity_bounds_strict).1 (some [999999999999]) (some infoShares1)
    999999999999 (by norm_num [get_yahoo_historical, infoShares1])

/-- A fetcher with a key that validated at startup. -/
def stKeyOn : FetcherState := FetcherState.init true true

/-- A fetcher whose FMP strategy has been disabled mid-run. -/
def stDisabled : FetcherState := ⟨true, false, Stats.init⟩

/-- A call whose FMP request is answered 429. -/
def w429 : CallWorld := ⟨none, none, none, some ⟨429, none⟩⟩

/-- A call whose FMP request is answered 403. -/
def w403 : CallWorld := ⟨none, none, none, some ⟨403, none⟩⟩

theorem fmp_persistent_disable_witness :
    (get_market_cap stKeyOn w429).2.1.fmp_api_working = false ∧
    ((runCallsFmpCount stDisabled [w429]).1.fmp_api_working = false ∧
     (runCallsFmpCount stDisabled [w429]).2 = 0) ∧
    ((get_market_cap stKeyOn w403).2.1.fmp_api_working =
       stKeyOn.fmp_api_working ∧
     fmpEffective stKeyOn w403 = none) :=
  ⟨(fmp_persistent_disable).1 stKeyOn w429 ⟨429, none⟩ rfl rfl rfl
      (Or.inr rfl) rfl,
   (fmp_persistent_disable).2.1 stDisabled [w429] rfl,
   (fmp_persistent_disable).2.2 stKeyOn w403 ⟨403, none⟩ rfl rfl rfl rfl⟩

/-- A world whose exchange oracle answers "OTC" (not in the mapping
table). -/
def worldOTC : ScrapeWorld :=
  ⟨fun _ => [rec25], fun _ => some "OTC", fun _ _ => wfail⟩

/-- The empty starting collection state. -/
def emptyCollect : CollectState := ⟨[], FetcherState.init false false, [], []⟩

theorem exchange_hard_filter_witness :
    (processEntry targetSet 2000000000 worldOTC "2015-01-01" "2024-12-31"
      "0000000001" acmeInfo emptyCollect rec25).all_filings =
      emptyCollect.all_filings ∧
    (processEntry targetSet 2000000000 worldOTC "2015-01-01" "2024-12-31"
      "0000000001" acmeInfo emptyCollect rec25).filings_with_market_cap =
      emptyCollect.filings_with_market_cap :=
  (exchange_hard_filter).1 targetSet 2000000000 worldOTC "2015-01-01"
    "2024-12-31" "0000000001" acmeInfo emptyCollect rec25
    (by
      intro e h
      have h0 : (get_ticker_exchange emptyCollect.cache
          worldOTC.exchangeInfo acmeInfo.ticker).1 = none := by decide
      rw [h0] at h
      exact Option.noConfusion h)

/-- All three registry endpoints failing. -/
def rsAllFail : List EndpointResult :=
  [EndpointResult.fail, EndpointResult.fail, EndpointResult.fail]

/-- A world with no data at all. -/
def trivialWorld : ScrapeWorld := ⟨fun _ => [], fun _ => none, fun _ _ => wfail⟩

theorem registry_total_failure_witness :
    get_company_tickers rsAllFail = [] ∧
    (find_form25_filings_with_market_cap targetSet trivialWorld
      (get_company_tickers rsAllFail) "2015-01-01" "2024-12-31"
      2000000000 (FetcherState.init false false)).all_filings = [] ∧
    (find_form25_filings_with_market_cap targetSet trivialWorld
      (get_company_tickers rsAllFail) "2015-01-01" "2024-12-31"
      2000000000 (FetcherState.init false false)).filings_with_market_cap =
      [] ∧
    filesWritten
      (find_form25_filings_with_market_cap targetSet trivialWorld
        (get_company_tickers rsAllFail) "2015-01-01" "2024-12-31"
        2000000000 (FetcherState.init false false)).all_filings
      (find_form25_filings_with_market_cap targetSet trivialWorld
        (get_company_tickers rsAllFail) "2015-01-01" "2024-12-31"
        2000000000 (FetcherState.init false false)).filings_with_market_cap
      = [] :=
  ⟨(registry_total_failure rsAllFail (by decide)).1,
   (registry_total_failure rsAllFail (by decide)).2 targetSet trivialWorld
     "2015-01-01" "2024-12-31" 2000000000 (FetcherState.init false false)⟩

/-- An older filing for ticker AAAA. -/
def filingOld : Filing :=
  ⟨"AAAA", "Alpha", "0000000002", "NYSE", "25", "2018-03-01", "a1", "d1",
   none, "none"⟩

/-- A newer filing for ticker AAAA. -/
def filingNew : Filing :=
  ⟨"AAAA", "Alpha", "0000000002", "NYSE", "25", "2019-07-04", "a2", "d2",
   none, "none"⟩

theorem dedupe_latest_wins_witness :
    ∃ rows syms, save_to_csv [filingOld, filingNew] = some (rows, syms) ∧
      filingOld ∉ rows ∧
      (∃ g ∈ rows, g.ticker = filingOld.ticker ∧
        strLt filingOld.filing_date g.filing_date = true) ∧
      (∀ s, s ∈ syms ↔ s ∈ rows.map (fun f => f.ticker)) ∧
      List.Pairwise (fun a b => strLe a b = true) syms :=
  dedupe_latest_wins [filingOld, filingNew] filingOld filingNew
    (by decide) (by decide) rfl (by decide)

theorem exchange_cache_write_once_witness :
    (get_ticker_exchange [] (fun _ => some "OTC") "XYZ").2.1 = [] ∧
    (get_ticker_exchange [] (fun _ => some "OTC") "XYZ").2.2 = true :=
  ⟨((exchange_cache_write_once).1 [] (fun _ => some "OTC") "XYZ").1
     (by decide),
   ((exchange_cache_write_once).1 [] (fun _ => some "OTC") "XYZ").2.1
     (by decide)⟩
